import Mathlib

/-!
Verification development for `src/ojd_export.py` (Aanseeoo/ojd-automa).

The script scrapes a metrics table, normalizes media names and numbers,
and upserts the result into spreadsheet tabs.  We embed its pure
normalization and persistence logic shallowly:

* strings are Lean `String`s; Python string methods are modelled on the
  underlying `List Char` (code points), with `unidecode` restricted to the
  accented characters that actually occur in the script's alias/constant
  tables (the embedding alphabet of this program);
* the spreadsheet tabs are explicit state (`Option (List MetricRow)` for
  the historical tab, `List PairRow` / `List SingleRow` for the
  comparison tabs); the read-back of previously written cells is the
  identity on this value-level state, which is exactly what the script's
  serial-date and numeric re-coercion round trip produces;
* `None`/absent metric cells are `Option`.
-/

/-- Python `str.lower` restricted to the program's alphabet: ASCII
letters plus the accented Spanish capitals appearing in the script's
constants. -/
def pyLower (c : Char) : Char :=
  if 65 ≤ c.toNat ∧ c.toNat ≤ 90 then Char.ofNat (c.toNat + 32)
  else if c = 'Á' then 'á'
  else if c = 'É' then 'é'
  else if c = 'Í' then 'í'
  else if c = 'Ó' then 'ó'
  else if c = 'Ú' then 'ú'
  else if c = 'Ü' then 'ü'
  else if c = 'Ñ' then 'ñ'
  else c

/-- Model of `unidecode` on the program's alphabet: strip the accent of a
lowercase Spanish accented letter, leave everything else unchanged. -/
def deaccent (c : Char) : Char :=
  if c = 'á' then 'a'
  else if c = 'é' then 'e'
  else if c = 'í' then 'i'
  else if c = 'ó' then 'o'
  else if c = 'ú' then 'u'
  else if c = 'ü' then 'u'
  else if c = 'ñ' then 'n'
  else c

/-- Keep `[a-z0-9]`, as the regex `[^a-z0-9]` deletion in `norm` does. -/
def keepAlnum (c : Char) : Bool :=
  (97 ≤ c.toNat && c.toNat ≤ 122) || (48 ≤ c.toNat && c.toNat ≤ 57)

/-- Embedding of `norm` (ojd_export.py lines 49-50): lowercase, strip accents, delete
every character outside `[a-z0-9]`. -/
def norm (s : String) : String :=
  ⟨((s.data.map pyLower).map deaccent).filter keepAlnum⟩

/-- Whether `n` starts with `p` (helper for the substring test). -/
def leadMatch : List Char → List Char → Bool
  | [], _ => true
  | _ :: _, [] => false
  | a :: as, b :: bs => a == b && leadMatch as bs

/-- Whether `n` occurs as a contiguous sublist of `h`. -/
def hasSub : List Char → List Char → Bool
  | n, [] => n.isEmpty
  | n, c :: cs => leadMatch n (c :: cs) || hasSub n cs

/-- Python `needle in hay` on strings: substring containment. -/
def contains_sub (needle hay : String) : Bool :=
  hasSub needle.data hay.data

/-- The `TARGET_NAMES` dict (lines 53-61), in dict insertion order. -/
def TARGET_NAMES : List (String × String) :=
  [("ultimahora", "ULTIMAHORA.ES"),
   ("diariodemallorca", "DIARIODEMALLORCA.ES"),
   ("diariodeibiza", "DIARIODEIBIZA.ES"),
   ("mallorcamagazin", "MALLORCAMAGAZIN.COM"),
   ("mallorcazeitung", "MALLORCAZEITUNG.COM"),
   ("majorcadaily", "MAJORCADAILYBULLETIN.COM"),
   ("majorcadailybulletin", "MAJORCADAILYBULLETIN.COM")]

/-- Lookup `TARGET_NAMES[k]`; every key used by the script is present. -/
def target_name (k : String) : String :=
  (List.lookup k TARGET_NAMES).getD ""

/-- The `ALIASES` dict (lines 63-71), in dict insertion order; each alias set is
listed in its literal order (iteration order inside a set only feeds an
`any`, so it is irrelevant). -/
def ALIASES : List (String × List String) :=
  [("ultimahora", ["ultimahora.es", "ultimahora", "ultima hora", "última hora"]),
   ("diariodemallorca", ["diariodemallorca.es", "diariodemallorca", "diario de mallorca"]),
   ("diariodeibiza", ["diariodeibiza.es", "diariodeibiza", "diario de ibiza"]),
   ("mallorcamagazin", ["mallorcamagazin.es", "mallorca magazin", "mallorcamagazin.com"]),
   ("mallorcazeitung", ["mallorcazeitung.es", "mallorca zeitung", "mallorcazeitung.com"]),
   ("majorcadaily", ["majorcadailybulletin.es", "majorcadaily", "majorca daily bulletin",
                     "majorca daily", "majorcadailybulletin.com"])]

/-- The `ORDER_KEYS` list (line 72). -/
def ORDER_KEYS : List String :=
  ["ultimahora", "diariodemallorca", "diariodeibiza", "mallorcamagazin",
   "mallorcazeitung", "majorcadaily"]

/-- The `order_index` dict (lines 137, 192): canonical display name to rank. -/
def order_index : List (String × Nat) :=
  ORDER_KEYS.enum.map (fun p => (target_name p.2, p.1))

/-- Lookup `order_index.get(x, 999)`: the rank of a name, 999 if unranked. -/
def ordOf (nm : String) : Nat :=
  (List.lookup nm order_index).getD 999

/-- The `WEEKDAYS_ES` list (line 74). -/
def WEEKDAYS_ES : List String :=
  ["lunes", "martes", "miércoles", "jueves", "viernes", "sábado", "domingo"]

/-- Python `str.capitalize` on the program's alphabet: uppercase an ASCII
first letter, lowercase the rest. -/
def py_capitalize (s : String) : String :=
  match s.data with
  | [] => ""
  | c :: cs =>
    ⟨(if 97 ≤ c.toNat ∧ c.toNat ≤ 122 then Char.ofNat (c.toNat - 32) else c) ::
      cs.map pyLower⟩

/-- Decimal value of a digit list (the `int` parse of an all-digit
string). -/
def digits_to_nat (l : List Char) : Nat :=
  l.foldl (fun acc c => 10 * acc + (c.toNat - 48)) 0

/-- Python `str.isdigit` on an ASCII-digit alphabet: non-empty and all
digits. -/
def py_isdigit (l : List Char) : Bool :=
  !l.isEmpty && l.all Char.isDigit

/-- The null-like tokens of `to_int` (line 113). -/
def NULLTOKENS : List String := ["", "nan", "none", "null"]

/-- Python `str.strip`: drop whitespace from both ends. -/
def py_strip (l : List Char) : List Char :=
  ((l.dropWhile Char.isWhitespace).reverse.dropWhile Char.isWhitespace).reverse

/-- Embedding of `to_int` (lines 111-116): strip, null-check case-insensitively, delete
`.` and `,`, then parse if all digits, else absent. -/
def to_int (x : String) : Option Int :=
  let s := py_strip x.data
  if NULLTOKENS.contains ⟨s.map pyLower⟩ then none
  else
    let t := s.filter (fun c => !(c == '.' || c == ','))
    if py_isdigit t then some ((digits_to_nat t : Nat) : Int) else none

/-- Whether some alias of the entry `p` occurs (normalized) inside the
already-normalized raw value `n` (the loop body test of lines 106-107). -/
def aliasHit (n : String) (p : String × List String) : Bool :=
  p.2.any (fun a => contains_sub (norm a) n)

/-- The `for key, aliases in ALIASES.items()` loop of `canonical_name`. -/
def canonical_find : List (String × List String) → String → Option String
  | [], _ => none
  | p :: rest, n =>
    if aliasHit n p then some (target_name p.1) else canonical_find rest n

/-- Embedding of `canonical_name` (lines 104-109). -/
def canonical_name (val : String) : Option String :=
  canonical_find ALIASES (norm val)

/-- A parsed HTML table: a header row and data rows of cell strings. -/
structure RawTable where
  header : List String
  rows : List (List String)
deriving DecidableEq

/-- Cell access `row[i]`, empty string for a missing cell. -/
def cell (r : List String) (i : Nat) : String :=
  r.getD i ""

/-- The unit of record of the historical tab: one output row of
`shape_output` (columns Fecha, Nombre, Navegadores Únicos, Visitas,
Páginas Vistas); absent metrics are `none`. -/
structure MetricRow where
  fecha : String
  nombre : String
  navu : Option Int
  visitas : Option Int
  pv : Option Int
deriving DecidableEq

/-- Candidate tokens for the unique-visitors column (line 125). -/
def NAVU_CANDS : List String :=
  ["navegadoresunicos", "usuariosunicos", "usuarios", "users"]

/-- Candidate tokens for the visits column (line 126). -/
def VISITAS_CANDS : List String :=
  ["visitas", "sesiones", "sessions", "visits"]

/-- Candidate tokens for the pageviews column (line 127). -/
def PV_CANDS : List String :=
  ["paginasvistas", "pageviews", "paginas", "pv"]

/-- Embedding of `find_col` (lines 119-124): first column whose normalized header
equals a candidate or contains one as a substring. -/
def find_col (header : List String) (cands : List String) : Option Nat :=
  header.findIdx? (fun c => cands.any (fun x => norm c == x || contains_sub x (norm c)))

/-- Embedding of `shape_output` (lines 118-140): canonicalize the media column, coerce
the metric columns, drop unmatched rows, sort by canonical rank.

The `Fecha` column of every emitted row is blank, not `forced_date`:
line 130 assigns the scalar date string to a still-empty DataFrame,
creating a zero-row column, and the `Nombre` Series assignment on line
131 then reindexes the frame to the Series' index with a NaN fill
(pandas GH5632), wiping the `Fecha` column.  The resulting NaN date is
serialized as a blank cell on the write path
(`.where(pd.notna(...), "")`), i.e. `""` at this value level.  The
`forced_date` argument is therefore taken but has no effect on the
output, exactly as in the code. -/
def shape_output (df : RawTable) (mediaIdx : Nat) (forced_date : String) : List MetricRow :=
  let navuCol := find_col df.header NAVU_CANDS
  let visCol := find_col df.header VISITAS_CANDS
  let pvCol := find_col df.header PV_CANDS
  let base := df.rows.filterMap (fun r =>
    match canonical_name (cell r mediaIdx) with
    | none => none
    | some nm =>
      some { fecha := "", nombre := nm,
             navu := navuCol.bind (fun i => to_int (cell r i)),
             visitas := visCol.bind (fun i => to_int (cell r i)),
             pv := pvCol.bind (fun i => to_int (cell r i)) })
  List.insertionSort (fun a b => ordOf a.nombre ≤ ordOf b.nombre) base

/-- The `signals` groups of `pick_table` (lines 90-95). -/
def SIGNALS : List (List String) :=
  [["navegadoresunicos", "usuariosunicos", "usuarios", "users", "navegadores"],
   ["visitas", "sesiones", "sessions", "visits"],
   ["paginasvistas", "pageviews", "paginas", "pv"],
   ["nombre", "medio", "site", "sitio", "dominio", "brand", "marca", "titulo", "name"]]

/-- The score of a candidate table (line 99): how many of the four
semantic groups have some token contained in some normalized header. -/
def scoreTable (t : RawTable) : Int :=
  (SIGNALS.countP (fun group =>
    group.any (fun s => t.header.any (fun c => contains_sub s (norm c)))) : Nat)

/-- The `for t in tables` loop of `pick_table` (lines 96-101), carrying
`(best, score_best)`. -/
def pickGo : List RawTable → Option RawTable × Int → Option RawTable × Int
  | [], acc => acc
  | t :: rest, acc =>
    if scoreTable t > acc.2 then pickGo rest (some t, scoreTable t) else pickGo rest acc

/-- Embedding of `pick_table` (lines 88-102), starting from `(None, -1)`. -/
def pick_table (tables : List RawTable) : Option RawTable :=
  (pickGo tables (none, -1)).1

/-- The `(date, name)` key equality used by `drop_duplicates(subset=["Fecha","Nombre"])`. -/
def sameKey (a b : MetricRow) : Bool :=
  a.fecha == b.fecha && a.nombre == b.nombre

/-- Whether some row of `l` shares its `(date, name)` key with `r`. -/
def keyMem (r : MetricRow) (l : List MetricRow) : Bool :=
  l.any (sameKey r)

/-- Embedding of `drop_duplicates(subset=["Fecha","Nombre"], keep="last")` (line 190):
a row survives iff no later row has the same key. -/
def drop_duplicates_keep_last : List MetricRow → List MetricRow
  | [] => []
  | r :: rs =>
    if rs.any (sameKey r) then drop_duplicates_keep_last rs
    else r :: drop_duplicates_keep_last rs

/-- Lexicographic code-point order on character lists: the `<` that
Python string comparison (and hence the pandas sort on the `Fecha`
strings) uses. -/
def strLt : List Char → List Char → Bool
  | _, [] => false
  | [], _ :: _ => true
  | a :: as, b :: bs =>
    decide (a.toNat < b.toNat) || (a.toNat == b.toNat && strLt as bs)

/-- The sort key of `sort_values(["Fecha","__ord"])` (lines 192-194):
date ascending (string order), then canonical rank ascending. -/
def rowLe (a b : MetricRow) : Bool :=
  strLt a.fecha.data b.fecha.data ||
    (a.fecha == b.fecha && decide (ordOf a.nombre ≤ ordOf b.nombre))

/-- Propositional form of `rowLe`. -/
def RowLe (a b : MetricRow) : Prop := rowLe a b = true

instance : DecidableRel RowLe :=
  fun a b => inferInstanceAs (Decidable (rowLe a b = true))

/-- The re-sort of the merged set (line 194). -/
def sortRows (l : List MetricRow) : List MetricRow :=
  List.insertionSort RowLe l

/-- Embedding of `write_append_and_dedupe_types` (lines 172-197) as a function of the
historical-tab state.  `none` is a blank tab (the `if not vals` branch,
which writes the new batch as is); `some old` is a tab holding header
plus `old` (the read-back/re-coercion of previously written rows is the
identity at this value level).  The merged result is the row set written
back. -/
def write_append_and_dedupe_types (store : Option (List MetricRow))
    (df_new : List MetricRow) : List MetricRow :=
  match store with
  | none => df_new
  | some old => sortRows (drop_duplicates_keep_last (old ++ df_new))

/-- The sentinel name of `write_no_data` (line 305). -/
def NO_DATA : String := "NO HAY DATOS"

/-- The sentinel row `[date, "NO HAY DATOS", "", "", ""]` (line 305). -/
def sentinelRow (d : String) : MetricRow :=
  ⟨d, NO_DATA, none, none, none⟩

/-- The membership test guarding the sentinel append (line 312). -/
def sentinel_pred (d : String) (r : MetricRow) : Bool :=
  r.fecha == d && r.nombre == NO_DATA

/-- The historical-tab part of `write_no_data` (lines 303-313): on a
blank tab write header plus the sentinel row, otherwise append the
sentinel row unless one with the same date is already present. -/
def write_no_data_hist (store : Option (List MetricRow)) (d : String) : List MetricRow :=
  match store with
  | none => [sentinelRow d]
  | some rows =>
    if rows.any (sentinel_pred d) then rows else rows ++ [sentinelRow d]

/-- Iteration of `n` successive no-data runs for date `d`, at the historical tab. -/
def iterate_no_data (d : String) : Nat → Option (List MetricRow) → Option (List MetricRow)
  | 0, st => st
  | n + 1, st => iterate_no_data d n (some (write_no_data_hist st d))

/-- How many rows of the historical tab are the sentinel of date `d`. -/
def countSentinel (store : Option (List MetricRow)) (d : String) : Nat :=
  match store with
  | none => 0
  | some rows => rows.countP (sentinel_pred d)

/-- The date data the upsert functions derive from the `target` datetime:
`target.weekday()` (Monday = 0), `target.day`, and the Google-Sheets
serial `gs_date_serial(target.date())` (lines 85-86, 233-235). -/
structure Target where
  weekday : Fin 7
  day : Nat
  serial : Int
deriving DecidableEq

/-- The weekday cell `WEEKDAYS_ES[target.weekday()].capitalize()` (line 233). -/
def weekday_name (t : Target) : String :=
  py_capitalize (WEEKDAYS_ES.getD t.weekday.val "")

/-- Round-half-to-even on an exact rational, the semantics of Python's
`round` at its banker's-rounding tie rule; the script's operands are
exact integer quotients modelled in `ℚ`. -/
def round_half_even (q : ℚ) : Int :=
  let f := q.floor
  let r := q - (f : ℚ)
  if r < 1/2 then f
  else if 1/2 < r then f + 1
  else if f % 2 = 0 then f else f + 1

/-- Python `round(x, 2)`: round-half-even at two decimal places. -/
def py_round2 (q : ℚ) : ℚ :=
  (round_half_even (100 * q) : ℚ) / 100

/-- The first row of the shaped batch whose name is `media` (the
`out_df[out_df["Nombre"]==media]` then `.iloc[0]` of `pick`,
lines 222-229 and 269-275). -/
def pick_media (out_df : List MetricRow) (media : String) : Option MetricRow :=
  out_df.find? (fun r => r.nombre == media)

/-- The `u` component of `pick` (unique visitors). -/
def pick_u (out_df : List MetricRow) (media : String) : Option Int :=
  (pick_media out_df media).bind MetricRow.navu

/-- The `v` component of `pick` (visits). -/
def pick_v (out_df : List MetricRow) (media : String) : Option Int :=
  (pick_media out_df media).bind MetricRow.visitas

/-- The `p` component of `pick` (pageviews). -/
def pick_p (out_df : List MetricRow) (media : String) : Option Int :=
  (pick_media out_df media).bind MetricRow.pv

/-- Embedding of `round(p/u, 2) if u and p else None` (lines 236-237): the ratio is
present exactly when both operands are present (not `None`) and non-zero
(Python truthiness), and then equals the rounded quotient. -/
def pvu (u p : Option Int) : Option ℚ :=
  match u, p with
  | some a, some b =>
    if a ≠ 0 ∧ b ≠ 0 then some (py_round2 ((b : ℚ) / (a : ℚ))) else none
  | _, _ => none

/-- One row of a pair comparison tab, the 11-tuple `newrow` of line 238
with its positional cells named: `[Día, Nº, Fecha, Usuarios A, Usuarios
B, Visitas A, Visitas B, Páginas A, Páginas B, PV/U A, PV/U B]`. -/
structure PairRow where
  dia : String
  num : Nat
  fecha : Int
  uA : Option Int
  uB : Option Int
  vA : Option Int
  vB : Option Int
  pA : Option Int
  pB : Option Int
  pvuA : Option ℚ
  pvuB : Option ℚ
deriving DecidableEq

/-- One row of the single comparison tab, the 5-tuple `newrow` of line
280: `[Día, Nº, Fecha, Usuarios, Páginas vistas]`. -/
structure SingleRow where
  dia : String
  num : Nat
  fecha : Int
  u : Option Int
  p : Option Int
deriving DecidableEq

/-- The `newrow` of `upsert_pair_sheet` (lines 231-238). -/
def make_pair_row (out_df : List MetricRow) (mediaA mediaB : String) (t : Target) : PairRow :=
  { dia := weekday_name t, num := t.day, fecha := t.serial,
    uA := pick_u out_df mediaA, uB := pick_u out_df mediaB,
    vA := pick_v out_df mediaA, vB := pick_v out_df mediaB,
    pA := pick_p out_df mediaA, pB := pick_p out_df mediaB,
    pvuA := pvu (pick_u out_df mediaA) (pick_p out_df mediaA),
    pvuB := pvu (pick_u out_df mediaB) (pick_p out_df mediaB) }

/-- The `newrow` of `upsert_single_sheet` (lines 269-280). -/
def make_single_row (out_df : List MetricRow) (media : String) (t : Target) : SingleRow :=
  { dia := weekday_name t, num := t.day, fecha := t.serial,
    u := pick_u out_df media, p := pick_p out_df media }

/-- The upsert-by-date of lines 240-250 and 282-292 as a pure list
operation on the view's data rows: overwrite in place the first row
whose date serial equals the new row's, else append.  (An empty view is
the `len(vals) <= 1` branch, which appends.) -/
def upsert_by_date {α : Type} (fec : α → Int) : List α → α → List α
  | [], nr => [nr]
  | r :: rs, nr =>
    if fec r == fec nr then nr :: rs else r :: upsert_by_date fec rs nr

/-- Embedding of `upsert_pair_sheet` (lines 209-260) on the view state. -/
def upsert_pair_sheet (view : List PairRow) (out_df : List MetricRow)
    (mediaA mediaB : String) (t : Target) : List PairRow :=
  upsert_by_date PairRow.fecha view (make_pair_row out_df mediaA mediaB t)

/-- Embedding of `upsert_single_sheet` (lines 262-300) on the view state. -/
def upsert_single_sheet (view : List SingleRow) (out_df : List MetricRow)
    (media : String) (t : Target) : List SingleRow :=
  upsert_by_date SingleRow.fecha view (make_single_row out_df media t)

/-- The blank pair row `[weekday, daynum, serial, None, ..., None]`
appended by `write_no_data` (line 321). -/
def blank_pair_row (t : Target) : PairRow :=
  { dia := weekday_name t, num := t.day, fecha := t.serial,
    uA := none, uB := none, vA := none, vB := none, pA := none, pB := none,
    pvuA := none, pvuB := none }

/-- The blank single row `[weekday, daynum, serial, None, None]`
appended by `write_no_data` (line 328). -/
def blank_single_row (t : Target) : SingleRow :=
  { dia := weekday_name t, num := t.day, fecha := t.serial,
    u := none, p := none }

/-- The comparison-view side of `write_no_data` on one existing pair tab
(lines 318-324): an unconditional `append_row`, with no date lookup. -/
def write_no_data_pair (view : List PairRow) (t : Target) : List PairRow :=
  view ++ [blank_pair_row t]

/-- The comparison-view side of `write_no_data` on one existing single
tab (lines 325-330): an unconditional `append_row`. -/
def write_no_data_single (view : List SingleRow) (t : Target) : List SingleRow :=
  view ++ [blank_single_row t]

/-- How many rows of a pair view carry the date serial `s`. -/
def count_fecha_pair (view : List PairRow) (s : Int) : Nat :=
  view.countP (fun r => r.fecha == s)

/-- How many rows of a single view carry the date serial `s`. -/
def count_fecha_single (view : List SingleRow) (s : Int) : Nat :=
  view.countP (fun r => r.fecha == s)

/-- Strings with equal character data are equal. -/
theorem string_data_eq {s t : String} (h : s.data = t.data) : s = t := by
  cases s; cases t; exact congrArg String.mk h

/-- Characterization of `sameKey`, unfolded to propositional equality of the two key columns. -/
theorem sameKey_eq_true_iff {a b : MetricRow} :
    sameKey a b = true ↔ a.fecha = b.fecha ∧ a.nombre = b.nombre := by
  simp [sameKey]

/-- Every row shares its key with itself. -/
theorem sameKey_refl (a : MetricRow) : sameKey a a = true := by
  simp [sameKey]

/-- Key disjointness is symmetric. -/
theorem sameKey_false_symm {a b : MetricRow} (h : sameKey a b = false) :
    sameKey b a = false := by
  cases hb : sameKey b a with
  | false => rfl
  | true =>
    rcases sameKey_eq_true_iff.mp hb with ⟨h1, h2⟩
    have ht : sameKey a b = true := sameKey_eq_true_iff.mpr ⟨h1.symm, h2.symm⟩
    rw [ht] at h
    cases h

/-- Deduplication only keeps rows of the input. -/
theorem mem_of_mem_ddkl {r : MetricRow} :
    ∀ {l : List MetricRow}, r ∈ drop_duplicates_keep_last l → r ∈ l := by
  intro l
  induction l with
  | nil => intro h; simp [drop_duplicates_keep_last] at h
  | cons a rs ih =>
    intro h
    simp only [drop_duplicates_keep_last] at h
    split at h
    · exact List.mem_cons_of_mem _ (ih h)
    · rcases List.mem_cons.mp h with h | h
      · exact h ▸ List.mem_cons_self _ _
      · exact List.mem_cons_of_mem _ (ih h)

/-- After deduplication no two rows share a `(date, name)` key. -/
theorem ddkl_pairwise (l : List MetricRow) :
    List.Pairwise (fun a b => sameKey a b = false) (drop_duplicates_keep_last l) := by
  induction l with
  | nil => simp [drop_duplicates_keep_last]
  | cons a rs ih =>
    simp only [drop_duplicates_keep_last]
    split
    · exact ih
    · rename_i hany
      refine List.Pairwise.cons ?_ ih
      intro b hb
      cases hsk : sameKey a b with
      | false => rfl
      | true => exact absurd (List.any_eq_true.mpr ⟨b, mem_of_mem_ddkl hb, hsk⟩) hany

/-- Deduplication is the identity on key-disjoint row lists. -/
theorem ddkl_eq_self {l : List MetricRow}
    (h : List.Pairwise (fun a b => sameKey a b = false) l) :
    drop_duplicates_keep_last l = l := by
  induction l with
  | nil => rfl
  | cons a rs ih =>
    rcases List.pairwise_cons.mp h with ⟨h1, h2⟩
    have hany : rs.any (sameKey a) = false := by
      rw [List.any_eq_false]
      intro x hx
      simp [h1 x hx]
    simp only [drop_duplicates_keep_last, hany]
    simpa using ih h2

/-- Keep-last deduplication of a concatenation: the right block is
deduplicated on its own, and a deduplicated left row survives exactly
when its key does not reappear on the right. -/
theorem ddkl_append (A B : List MetricRow) :
    drop_duplicates_keep_last (A ++ B) =
      (drop_duplicates_keep_last A).filter (fun r => !keyMem r B) ++
        drop_duplicates_keep_last B := by
  induction A with
  | nil => simp [drop_duplicates_keep_last]
  | cons a A ih =>
    simp only [List.cons_append, drop_duplicates_keep_last, List.any_append]
    cases hA : A.any (sameKey a) with
    | true => simpa [hA] using ih
    | false =>
      cases hB : keyMem a B with
      | true =>
        have hB2 : B.any (sameKey a) = true := hB
        simp [hA, hB2, ih, List.filter_cons, keyMem, hB]
      | false =>
        have hB2 : B.any (sameKey a) = false := hB
        simp [hA, hB2, ih, List.filter_cons, keyMem, hB]

/-- Every surviving row of `drop_duplicates_keep_last X` has its key in
`X` itself, so filtering those keys away empties the list. -/
theorem filter_ddkl_self (X : List MetricRow) :
    (drop_duplicates_keep_last X).filter (fun r => !keyMem r X) = [] := by
  rw [List.filter_eq_nil_iff]
  intro r hr
  have hk : keyMem r X = true := by
    rw [keyMem, List.any_eq_true]
    exact ⟨r, mem_of_mem_ddkl hr, sameKey_refl r⟩
  simp [hk]

/-- Lexicographic code-point order is transitive. -/
theorem strLt_trans : ∀ {as bs cs : List Char},
    strLt as bs = true → strLt bs cs = true → strLt as cs = true := by
  intro as
  induction as with
  | nil =>
    intro bs cs h1 h2
    cases cs with
    | nil => simp [strLt] at h2
    | cons c cs => simp [strLt]
  | cons a as ih =>
    intro bs cs h1 h2
    cases bs with
    | nil => simp [strLt] at h1
    | cons b bs =>
      cases cs with
      | nil => simp [strLt] at h2
      | cons c cs =>
        simp only [strLt, Bool.or_eq_true, Bool.and_eq_true, decide_eq_true_eq,
          beq_iff_eq] at h1 h2 ⊢
        rcases h1 with h1 | ⟨e1, r1⟩
        · rcases h2 with h2 | ⟨e2, r2⟩
          · exact Or.inl (by omega)
          · exact Or.inl (by omega)
        · rcases h2 with h2 | ⟨e2, r2⟩
          · exact Or.inl (by omega)
          · exact Or.inr ⟨by omega, ih r1 r2⟩

/-- Two lists neither of which is lexicographically below the other are
equal. -/
theorem strLt_connex : ∀ {as bs : List Char},
    strLt as bs = false → strLt bs as = false → as = bs := by
  intro as
  induction as with
  | nil =>
    intro bs h1 h2
    cases bs with
    | nil => rfl
    | cons b bs => simp [strLt] at h1
  | cons a as ih =>
    intro bs h1 h2
    cases bs with
    | nil => simp [strLt] at h2
    | cons b bs =>
      have h1' : ¬ strLt (a :: as) (b :: bs) = true := by simp [h1]
      have h2' : ¬ strLt (b :: bs) (a :: as) = true := by simp [h2]
      simp only [strLt, Bool.or_eq_true, Bool.and_eq_true, decide_eq_true_eq,
        beq_iff_eq] at h1' h2'
      push_neg at h1' h2'
      have he : a.toNat = b.toNat := by omega
      have hab : a = b := Char.eq_of_val_eq (UInt32.ext he)
      have hr1 : strLt as bs = false := by
        cases hx : strLt as bs with
        | false => rfl
        | true => exact absurd hx (h1'.2 he)
      have hr2 : strLt bs as = false := by
        cases hx : strLt bs as with
        | false => rfl
        | true => exact absurd hx (h2'.2 he.symm)
      rw [hab, ih hr1 hr2]

/-- The merge sort key is total. -/
theorem rowLe_total (a b : MetricRow) : RowLe a b ∨ RowLe b a := by
  cases h1 : strLt a.fecha.data b.fecha.data with
  | true => exact Or.inl (by simp [RowLe, rowLe, h1])
  | false =>
    cases h2 : strLt b.fecha.data a.fecha.data with
    | true => exact Or.inr (by simp [RowLe, rowLe, h2])
    | false =>
      have hf : a.fecha = b.fecha := string_data_eq (strLt_connex h1 h2)
      rcases Nat.le_total (ordOf a.nombre) (ordOf b.nombre) with h | h
      · exact Or.inl (by simp [RowLe, rowLe, h1, hf, h])
      · exact Or.inr (by simp [RowLe, rowLe, h2, hf.symm, h])

/-- The merge sort key is transitive. -/
theorem rowLe_trans (a b c : MetricRow) (h1 : RowLe a b) (h2 : RowLe b c) : RowLe a c := by
  simp only [RowLe, rowLe, Bool.or_eq_true, Bool.and_eq_true, decide_eq_true_eq,
    beq_iff_eq] at h1 h2 ⊢
  rcases h1 with h1 | ⟨e1, o1⟩
  · rcases h2 with h2 | ⟨e2, o2⟩
    · exact Or.inl (strLt_trans h1 h2)
    · exact Or.inl (by rw [← e2]; exact h1)
  · rcases h2 with h2 | ⟨e2, o2⟩
    · exact Or.inl (by rw [e1]; exact h2)
    · exact Or.inr ⟨e1.trans e2, Nat.le_trans o1 o2⟩

instance : IsTotal MetricRow RowLe := ⟨rowLe_total⟩

instance : IsTrans MetricRow RowLe := ⟨rowLe_trans⟩

/-- The written row list is a permutation of the deduplicated merge. -/
theorem sortRows_perm (l : List MetricRow) : (sortRows l).Perm l :=
  List.perm_insertionSort RowLe l

/-- The written row list is sorted by (date, rank). -/
theorem sortRows_sorted (l : List MetricRow) : List.Sorted RowLe (sortRows l) :=
  List.sorted_insertionSort RowLe l

/-- Count of rows with a given date serial is unchanged when the upsert
overwrites an existing row with that date. -/
theorem upsert_countP_of_any {α : Type} (fec : α → Int) (v : List α) (nr : α) (s : Int)
    (h : v.any (fun r => fec r == fec nr) = true) :
    (upsert_by_date fec v nr).countP (fun r => fec r == s) =
      v.countP (fun r => fec r == s) := by
  induction v with
  | nil => simp at h
  | cons r rs ih =>
    simp only [upsert_by_date]
    cases hm : (fec r == fec nr) with
    | true =>
      have he : fec r = fec nr := by simpa using hm
      simp [List.countP_cons, he]
    | false =>
      have h2 : rs.any (fun r => fec r == fec nr) = true := by
        simpa [List.any_cons, hm] using h
      simp [hm, List.countP_cons, ih h2]

/-- Count of rows with a given date serial after an appending upsert. -/
theorem upsert_countP_of_none {α : Type} (fec : α → Int) (v : List α) (nr : α) (s : Int)
    (h : v.any (fun r => fec r == fec nr) = false) :
    (upsert_by_date fec v nr).countP (fun r => fec r == s) =
      v.countP (fun r => fec r == s) + (if (fec nr == s) = true then 1 else 0) := by
  induction v with
  | nil => simp [upsert_by_date, List.countP_cons]
  | cons r rs ih =>
    have hm : (fec r == fec nr) = false := by
      cases hx : (fec r == fec nr) with
      | false => rfl
      | true => rw [List.any_cons, hx, Bool.true_or] at h; cases h
    have h2 : rs.any (fun r => fec r == fec nr) = false := by
      rw [List.any_cons, hm, Bool.false_or] at h; exact h
    simp only [upsert_by_date, hm]
    simp [List.countP_cons, ih h2]
    omega

/-- One upsert preserves at-most-one-row-per-date-serial. -/
theorem upsert_at_most_one {α : Type} (fec : α → Int) (v : List α) (nr : α)
    (h : ∀ s : Int, v.countP (fun r => fec r == s) ≤ 1) :
    ∀ s : Int, (upsert_by_date fec v nr).countP (fun r => fec r == s) ≤ 1 := by
  intro s
  cases hany : v.any (fun r => fec r == fec nr) with
  | true => rw [upsert_countP_of_any fec v nr s hany]; exact h s
  | false =>
    rw [upsert_countP_of_none fec v nr s hany]
    cases hs : (fec nr == s) with
    | false => simpa using h s
    | true =>
      have hfs : fec nr = s := by simpa using hs
      have h0 : v.countP (fun r => fec r == s) = 0 := by
        rw [List.countP_eq_zero]
        intro a ha hp
        have ha2 : (fec a == fec nr) = true := by
          have : fec a = s := by simpa using hp
          simp [this, hfs]
        have hc : v.any (fun r => fec r == fec nr) = true :=
          List.any_eq_true.mpr ⟨a, ha, ha2⟩
        rw [hany] at hc
        exact Bool.false_ne_true hc
      simp [h0, hs]

/-- Any sequence of upserts preserves at-most-one-row-per-date-serial. -/
theorem foldl_upsert_at_most_one {α : Type} (fec : α → Int) :
    ∀ (rs : List α) (v : List α),
      (∀ s : Int, v.countP (fun r => fec r == s) ≤ 1) →
      ∀ s : Int, (rs.foldl (upsert_by_date fec) v).countP (fun r => fec r == s) ≤ 1 := by
  intro rs
  induction rs with
  | nil => intro v h; exact h
  | cons r rs ih => intro v h; exact ih _ (upsert_at_most_one fec v r h)

/-- With no row carrying the new date serial, the upsert appends. -/
theorem upsert_append_of_no_match {α : Type} (fec : α → Int) (v : List α) (nr : α)
    (h : v.any (fun r => fec r == fec nr) = false) :
    upsert_by_date fec v nr = v ++ [nr] := by
  induction v with
  | nil => rfl
  | cons r rs ih =>
    have hm : (fec r == fec nr) = false := by
      cases hx : (fec r == fec nr) with
      | false => rfl
      | true => rw [List.any_cons, hx, Bool.true_or] at h; cases h
    have h2 : rs.any (fun r => fec r == fec nr) = false := by
      rw [List.any_cons, hm, Bool.false_or] at h; exact h
    simp [upsert_by_date, hm, ih h2]

/-- With a first matching row at position `i`, the upsert overwrites that
row in place. -/
theorem upsert_set_of_first_match {α : Type} (fec : α → Int) :
    ∀ (v : List α) (nr : α) (i : Nat) (hi : i < v.length),
      (fec (v.get ⟨i, hi⟩) == fec nr) = true →
      (∀ j (hj : j < i), (fec (v.get ⟨j, Nat.lt_trans hj hi⟩) == fec nr) = false) →
      upsert_by_date fec v nr = v.set i nr := by
  intro v
  induction v with
  | nil => intro nr i hi; exact absurd hi (Nat.not_lt_zero i)
  | cons r rs ih =>
    intro nr i hi hm hfirst
    cases i with
    | zero =>
      have hm2 : (fec r == fec nr) = true := hm
      simp only [upsert_by_date]
      rw [if_pos hm2]
      rfl
    | succ i =>
      have h0 : (fec r == fec nr) = false := hfirst 0 (Nat.succ_pos i)
      simp only [upsert_by_date]
      rw [if_neg (by simp [h0])]
      have := ih nr i (Nat.lt_of_succ_lt_succ hi) hm
        (fun j hj => hfirst (j + 1) (Nat.succ_lt_succ hj))
      rw [this]
      rfl

/-- The alias loop returns the target of the first entry whose alias set
matches. -/
theorem canonical_find_first :
    ∀ (L : List (String × List String)) (n : String) (i : Nat) (hi : i < L.length),
      aliasHit n (L.get ⟨i, hi⟩) = true →
      (∀ j (hj : j < i), aliasHit n (L.get ⟨j, Nat.lt_trans hj hi⟩) = false) →
      canonical_find L n = some (target_name (L.get ⟨i, hi⟩).1) := by
  intro L
  induction L with
  | nil => intro n i hi; exact absurd hi (Nat.not_lt_zero i)
  | cons p rest ih =>
    intro n i hi hm hfirst
    cases i with
    | zero =>
      have hm2 : aliasHit n p = true := hm
      simp only [canonical_find]
      rw [if_pos hm2]
      rfl
    | succ i =>
      have h0 : aliasHit n p = false := hfirst 0 (Nat.succ_pos i)
      simp only [canonical_find]
      rw [if_neg (by simp [h0])]
      exact ih n i (Nat.lt_of_succ_lt_succ hi) hm
        (fun j hj => hfirst (j + 1) (Nat.succ_lt_succ hj))

/-- The alias loop falls through to `None` when no entry matches. -/
theorem canonical_find_no_hit :
    ∀ (L : List (String × List String)) (n : String),
      (∀ p ∈ L, aliasHit n p = false) → canonical_find L n = none := by
  intro L
  induction L with
  | nil => intro n _; rfl
  | cons p rest ih =>
    intro n h
    simp only [canonical_find]
    rw [if_neg (by simp [h p (List.mem_cons_self p rest)])]
    exact ih n (fun q hq => h q (List.mem_cons_of_mem p hq))

/-- Behavior of the best-so-far loop of `pick_table`: either every score
is at most the incoming best score and the state is unchanged, or the
loop returns the first table attaining the maximum score, which beats
the incoming best score. -/
theorem pickGo_spec :
    ∀ (l : List RawTable) (b : Option RawTable) (sb : Int),
      ((∀ u ∈ l, scoreTable u ≤ sb) ∧ pickGo l (b, sb) = (b, sb)) ∨
      (∃ (i : Nat) (hi : i < l.length),
        sb < scoreTable (l.get ⟨i, hi⟩) ∧
        (∀ u ∈ l, scoreTable u ≤ scoreTable (l.get ⟨i, hi⟩)) ∧
        (∀ j (hj : j < i), scoreTable (l.get ⟨j, Nat.lt_trans hj hi⟩) <
          scoreTable (l.get ⟨i, hi⟩)) ∧
        pickGo l (b, sb) = (some (l.get ⟨i, hi⟩), scoreTable (l.get ⟨i, hi⟩))) := by
  intro l
  induction l with
  | nil => intro b sb; exact Or.inl ⟨by simp, rfl⟩
  | cons t rest ih =>
    intro b sb
    by_cases hgt : scoreTable t > sb
    · have hstep : pickGo (t :: rest) (b, sb) = pickGo rest (some t, scoreTable t) := by
        simp only [pickGo]
        rw [if_pos hgt]
      rcases ih (some t) (scoreTable t) with ⟨hall, heq⟩ | ⟨i, hi, hbig, hall, hfirst, heq⟩
      · refine Or.inr ⟨0, Nat.succ_pos _, hgt, ?_, ?_, ?_⟩
        · intro u hu
          rcases List.mem_cons.mp hu with h | h
          · rw [h]; exact le_refl _
          · exact hall u h
        · intro j hj; exact absurd hj (Nat.not_lt_zero j)
        · rw [hstep, heq]
          rfl
      · refine Or.inr ⟨i + 1, Nat.succ_lt_succ hi, ?_, ?_, ?_, ?_⟩
        · exact lt_trans hgt hbig
        · intro u hu
          rcases List.mem_cons.mp hu with h | h
          · rw [h]; exact le_of_lt hbig
          · exact hall u h
        · intro j hj
          cases j with
          | zero => exact hbig
          | succ j => exact hfirst j (Nat.lt_of_succ_lt_succ hj)
        · rw [hstep, heq]
          rfl
    · have hle : scoreTable t ≤ sb := le_of_not_lt hgt
      have hstep : pickGo (t :: rest) (b, sb) = pickGo rest (b, sb) := by
        simp only [pickGo]
        rw [if_neg hgt]
      rcases ih b sb with ⟨hall, heq⟩ | ⟨i, hi, hbig, hall, hfirst, heq⟩
      · refine Or.inl ⟨?_, by rw [hstep, heq]⟩
        intro u hu
        rcases List.mem_cons.mp hu with h | h
        · rw [h]; exact hle
        · exact hall u h
      · refine Or.inr ⟨i + 1, Nat.succ_lt_succ hi, hbig, ?_, ?_, ?_⟩
        · intro u hu
          rcases List.mem_cons.mp hu with h | h
          · rw [h]; exact le_of_lt (lt_of_le_of_lt hle hbig)
          · exact hall u h
        · intro j hj
          cases j with
          | zero => exact lt_of_le_of_lt hle hbig
          | succ j => exact hfirst j (Nat.lt_of_succ_lt_succ hj)
        · rw [hstep, heq]
          rfl

/-- The shaped output has exactly one row per input row whose media cell
canonicalizes; unmatched rows are dropped. -/
theorem shape_output_length_eq (df : RawTable) (mediaIdx : Nat) (d : String) :
    (shape_output df mediaIdx d).length =
      (df.rows.filter (fun r => (canonical_name (cell r mediaIdx)).isSome)).length := by
  simp only [shape_output]
  rw [List.length_insertionSort]
  induction df.rows with
  | nil => rfl
  | cons r rows ih =>
    cases hc : canonical_name (cell r mediaIdx) with
    | none => simp [List.filterMap_cons, List.filter_cons, hc, ih]
    | some nm => simp [List.filterMap_cons, List.filter_cons, hc, ih]

/-- One no-data run leaves exactly one sentinel row for its date in the
historical tab, provided there was at most one before. -/
theorem write_no_data_hist_count (st : Option (List MetricRow)) (d : String)
    (h : countSentinel st d ≤ 1) :
    countSentinel (some (write_no_data_hist st d)) d = 1 := by
  cases st with
  | none =>
    simp [countSentinel, write_no_data_hist, List.countP_cons, sentinel_pred, sentinelRow]
  | some rows =>
    simp only [countSentinel, write_no_data_hist] at h ⊢
    cases hany : rows.any (sentinel_pred d) with
    | true =>
      have h1 : 0 < rows.countP (sentinel_pred d) := by
        rcases List.any_eq_true.mp hany with ⟨x, hx, hpx⟩
        exact List.countP_pos_iff.mpr ⟨x, hx, hpx⟩
      rw [if_pos rfl]
      omega
    | false =>
      have h0 : rows.countP (sentinel_pred d) = 0 := by
        rw [List.countP_eq_zero]
        intro a ha
        exact List.any_eq_false.mp hany a ha
      have hone : sentinel_pred d (sentinelRow d) = true := by
        simp [sentinel_pred, sentinelRow]
      simp [hany, List.countP_append, h0, List.countP_cons, hone]

/-- Iterating no-data runs keeps the sentinel count at one. -/
theorem iterate_no_data_count (d : String) :
    ∀ (n : Nat) (st : Option (List MetricRow)), 1 ≤ n → countSentinel st d ≤ 1 →
      countSentinel (iterate_no_data d n st) d = 1 := by
  intro n
  induction n with
  | zero => intro st h1 _; exact absurd h1 (by omega)
  | succ n ih =>
    intro st h1 h2
    simp only [iterate_no_data]
    cases n with
    | zero => exact write_no_data_hist_count st d h2
    | succ m =>
      exact ih _ (by omega) (le_of_eq (write_no_data_hist_count st d h2))

/-- The two concrete rows of the spec's end-to-end merge example: batch A
and batch B for `(2024-03-10, ULTIMAHORA.ES)`. -/
def exRowA : MetricRow := ⟨"2024-03-10", "ULTIMAHORA.ES", some 100, some 50, some 10⟩

/-- Batch B's row of the merge example: same `(date, name)` key as
`exRowA`, different metric values. -/
def exRowB : MetricRow := ⟨"2024-03-10", "ULTIMAHORA.ES", some 200, some 60, some 20⟩

/-- A concrete duplicate-key batch: if two raw rows both canonicalize to
the same outlet, `shape_output` emits both with the same `(date, name)`
key (here with the blank date every shaped row carries). -/
theorem shape_output_dup_key_batch :
    shape_output ⟨["Nombre", "Usuarios", "Visitas", "Páginas"],
        [["Ultima Hora", "100", "50", "10"], ["ultimahora.es", "200", "60", "20"]]⟩
      0 "2024-03-10" =
      [⟨"", "ULTIMAHORA.ES", some 100, some 50, some 10⟩,
       ⟨"", "ULTIMAHORA.ES", some 200, some 60, some 20⟩] := by
  decide

/-- C1 (amended): merging the same MetricRow batch into the historical
store twice is idempotent up to row multiset, for every store state,
provided no two rows of the batch share the same `(date, name)` key:
two successive calls to `write_append_and_dedupe_types` with the same
batch leave the same persisted row set as one call. -/
theorem c1_merge_idempotent (store : Option (List MetricRow)) (X : List MetricRow)
    (hX : List.Pairwise (fun a b => sameKey a b = false) X) :
    (write_append_and_dedupe_types (some (write_append_and_dedupe_types store X)) X).Perm
      (write_append_and_dedupe_types store X) := by
  cases store with
  | none =>
    simp only [write_append_and_dedupe_types]
    have h2 : drop_duplicates_keep_last (X ++ X) = drop_duplicates_keep_last X := by
      rw [ddkl_append, filter_ddkl_self, List.nil_append]
    rw [h2, ddkl_eq_self hX]
    exact sortRows_perm X
  | some old =>
    simp only [write_append_and_dedupe_types]
    have hperm : (sortRows (drop_duplicates_keep_last (old ++ X))).Perm
        (drop_duplicates_keep_last (old ++ X)) := sortRows_perm _
    have hpair : List.Pairwise (fun a b => sameKey a b = false)
        (sortRows (drop_duplicates_keep_last (old ++ X))) :=
      (ddkl_pairwise (old ++ X)).perm hperm.symm (fun h => sameKey_false_symm h)
    have h1 : drop_duplicates_keep_last (sortRows (drop_duplicates_keep_last (old ++ X))) =
        sortRows (drop_duplicates_keep_last (old ++ X)) := ddkl_eq_self hpair
    have e2 : drop_duplicates_keep_last (sortRows (drop_duplicates_keep_last (old ++ X)) ++ X) =
        (sortRows (drop_duplicates_keep_last (old ++ X))).filter (fun r => !keyMem r X) ++
          drop_duplicates_keep_last X := by
      rw [ddkl_append, h1]
    have e3 : (drop_duplicates_keep_last (old ++ X)).filter (fun r => !keyMem r X) =
        (drop_duplicates_keep_last old).filter (fun r => !keyMem r X) := by
      rw [ddkl_append, List.filter_append, filter_ddkl_self, List.append_nil]
      exact List.filter_eq_self.mpr (fun x hx => (List.mem_filter.mp hx).2)
    have p1 : ((sortRows (drop_duplicates_keep_last (old ++ X))).filter
          (fun r => !keyMem r X)).Perm
        ((drop_duplicates_keep_last old).filter (fun r => !keyMem r X)) := by
      have hf := hperm.filter (fun r => !keyMem r X)
      exact e3 ▸ hf
    have hre : ((drop_duplicates_keep_last old).filter (fun r => !keyMem r X) ++
          drop_duplicates_keep_last X).Perm (drop_duplicates_keep_last (old ++ X)) := by
      rw [ddkl_append old X]
    have p3 : (drop_duplicates_keep_last
          (sortRows (drop_duplicates_keep_last (old ++ X)) ++ X)).Perm
        (drop_duplicates_keep_last (old ++ X)) := by
      rw [e2]
      exact (p1.append_right _).trans hre
    exact (sortRows_perm _).trans (p3.trans hperm.symm)

/-- C1 witness: a concrete instantiation of the amended idempotence
theorem at a one-row batch on a blank store. -/
theorem c1_merge_idempotent_witness :
    List.Pairwise (fun a b => sameKey a b = false) [exRowA] ∧
    (write_append_and_dedupe_types (some (write_append_and_dedupe_types none [exRowA]))
        [exRowA]).Perm
      (write_append_and_dedupe_types none [exRowA]) :=
  ⟨by decide, c1_merge_idempotent none [exRowA] (by decide)⟩

/-- C1 counterexample: for the batch `[exRowA, exRowB]` (two rows sharing
the key `(2024-03-10, ULTIMAHORA.ES)`; duplicate-key batches are
producible by `shape_output`, see `shape_output_dup_key_batch`) on a
blank store, one merge keeps both rows verbatim while a second merge
deduplicates, so the persisted row sets differ: the claim as stated
fails. -/
theorem c1_counterexample :
    exRowA ∈ write_append_and_dedupe_types none [exRowA, exRowB] ∧
    exRowA ∉ write_append_and_dedupe_types
        (some (write_append_and_dedupe_types none [exRowA, exRowB])) [exRowA, exRowB] := by
  decide

/-- C2: after any merge into a non-empty historical store, the persisted
rows are ordered by (date ascending, canonical rank ascending), no two
rows share a `(date, name)` key, every persisted row whose key occurs in
the new batch is a row of the new batch (last-write-wins), and merging
batch A then batch B of the spec's example leaves exactly one row for
the shared key, with B's values. -/
theorem c2_merge_invariants (old X : List MetricRow) :
    List.Sorted RowLe (write_append_and_dedupe_types (some old) X) ∧
    List.Pairwise (fun a b => sameKey a b = false)
      (write_append_and_dedupe_types (some old) X) ∧
    (∀ r ∈ write_append_and_dedupe_types (some old) X, keyMem r X = true → r ∈ X) ∧
    write_append_and_dedupe_types
        (some (write_append_and_dedupe_types none [exRowA])) [exRowB] = [exRowB] := by
  refine ⟨sortRows_sorted _, ?_, ?_, by decide⟩
  · exact (ddkl_pairwise (old ++ X)).perm (sortRows_perm _).symm
      (fun h => sameKey_false_symm h)
  · intro r hr hk
    have hr2 : r ∈ drop_duplicates_keep_last (old ++ X) := (sortRows_perm _).subset hr
    rw [ddkl_append] at hr2
    rcases List.mem_append.mp hr2 with h | h
    · have h2 := (List.mem_filter.mp h).2
      rw [hk] at h2
      simp at h2
    · exact mem_of_mem_ddkl h

/-- C2 witness: the last-write-wins conjunct instantiated at batch B
over a store holding batch A. -/
theorem c2_merge_invariants_witness :
    keyMem exRowB [exRowB] = true ∧
    exRowB ∈ write_append_and_dedupe_types (some [exRowA]) [exRowB] :=
  ⟨by decide, (c2_merge_invariants [exRowA] [exRowB]).2.2.1 exRowB (by decide) (by decide)⟩

/-- C3: for every target date, starting from a historical store holding
at most one sentinel for that date (in particular any store the script
itself can produce), any positive number of repeated no-data runs leaves
the sentinel row `(date, "NO HAY DATOS", absent metrics)` in the store
exactly once for that date. -/
theorem c3_no_data_idempotent (st : Option (List MetricRow)) (d : String) (n : Nat)
    (hn : 1 ≤ n) (h : countSentinel st d ≤ 1) :
    countSentinel (iterate_no_data d n st) d = 1 :=
  iterate_no_data_count d n st hn h

/-- C3 witness: three no-data runs for 2024-03-10 on a blank store leave
exactly one sentinel row. -/
theorem c3_no_data_idempotent_witness :
    1 ≤ 3 ∧ countSentinel none "2024-03-10" ≤ 1 ∧
    countSentinel (iterate_no_data "2024-03-10" 3 none) "2024-03-10" = 1 :=
  ⟨by decide, by decide, c3_no_data_idempotent none "2024-03-10" 3 (by decide) (by decide)⟩

/-- C4: comparison-view upsert-by-date is single-valued: starting from a
view with at most one row per date serial, any sequence of pair (or
single) upserts leaves each date serial in at most one row; moreover the
upsert appends exactly when no row carries the new serial, and otherwise
overwrites the first (hence, under the invariant, the) matching row in
place. -/
theorem c4_upsert_single_valued :
    (∀ (v : List PairRow) (args : List (List MetricRow × String × String × Target)),
      (∀ s : Int, count_fecha_pair v s ≤ 1) →
      ∀ s : Int, count_fecha_pair
        (args.foldl (fun w a => upsert_pair_sheet w a.1 a.2.1 a.2.2.1 a.2.2.2) v) s ≤ 1) ∧
    (∀ (w : List SingleRow) (args : List (List MetricRow × String × Target)),
      (∀ s : Int, count_fecha_single w s ≤ 1) →
      ∀ s : Int, count_fecha_single
        (args.foldl (fun u a => upsert_single_sheet u a.1 a.2.1 a.2.2) w) s ≤ 1) ∧
    (∀ (v : List PairRow) (nr : PairRow),
      v.any (fun r => r.fecha == nr.fecha) = false →
      upsert_by_date PairRow.fecha v nr = v ++ [nr]) ∧
    (∀ (v : List PairRow) (nr : PairRow) (i : Nat) (hi : i < v.length),
      ((v.get ⟨i, hi⟩).fecha == nr.fecha) = true →
      (∀ j (hj : j < i), ((v.get ⟨j, Nat.lt_trans hj hi⟩).fecha == nr.fecha) = false) →
      upsert_by_date PairRow.fecha v nr = v.set i nr) := by
  refine ⟨?_, ?_, ?_, ?_⟩
  · intro v args h s
    have hm := foldl_upsert_at_most_one PairRow.fecha
      (args.map (fun a => make_pair_row a.1 a.2.1 a.2.2.1 a.2.2.2)) v h s
    rw [List.foldl_map] at hm
    exact hm
  · intro w args h s
    have hm := foldl_upsert_at_most_one SingleRow.fecha
      (args.map (fun a => make_single_row a.1 a.2.1 a.2.2)) w h s
    rw [List.foldl_map] at hm
    exact hm
  · exact upsert_append_of_no_match PairRow.fecha
  · exact upsert_set_of_first_match PairRow.fecha

/-- The spec-example target date 2024-03-10 (a Sunday, weekday index 6,
day-of-month 10, Google-Sheets serial 45361). -/
def exTarget : Target := ⟨⟨6, by decide⟩, 10, 45361⟩

/-- C4 witness: two identical-date pair upserts on an empty view leave
each date serial in at most one row. -/
theorem c4_upsert_single_valued_witness :
    (∀ s : Int, count_fecha_pair ([] : List PairRow) s ≤ 1) ∧
    (∀ s : Int, count_fecha_pair
      (([([exRowB], "ULTIMAHORA.ES", "DIARIODEMALLORCA.ES", exTarget),
         ([exRowB], "ULTIMAHORA.ES", "DIARIODEMALLORCA.ES", exTarget)] :
          List (List MetricRow × String × String × Target)).foldl
        (fun w a => upsert_pair_sheet w a.1 a.2.1 a.2.2.1 a.2.2.2) ([] : List PairRow)) s ≤ 1) :=
  ⟨fun s => by simp [count_fecha_pair],
   c4_upsert_single_valued.1 []
     [([exRowB], "ULTIMAHORA.ES", "DIARIODEMALLORCA.ES", exTarget),
      ([exRowB], "ULTIMAHORA.ES", "DIARIODEMALLORCA.ES", exTarget)]
     (fun s => by simp [count_fecha_pair])⟩

/-- C5 (implicit): on the no-data fallback path the comparison-view
writes are unconditional appends of a blank-metrics row carrying the
date serial, with no lookup for an existing row of that serial; hence
two no-data runs with the same target date leave any pair or single
view with more than one row carrying that date serial. -/
theorem c5_no_data_views_duplicate (v : List PairRow) (w : List SingleRow) (t : Target) :
    write_no_data_pair v t = v ++ [blank_pair_row t] ∧
    write_no_data_single w t = w ++ [blank_single_row t] ∧
    1 < count_fecha_pair (write_no_data_pair (write_no_data_pair v t) t) t.serial ∧
    1 < count_fecha_single (write_no_data_single (write_no_data_single w t) t) t.serial := by
  have hb : ((blank_pair_row t).fecha == t.serial) = true := by simp [blank_pair_row]
  have hs : ((blank_single_row t).fecha == t.serial) = true := by simp [blank_single_row]
  refine ⟨rfl, rfl, ?_, ?_⟩
  · simp [write_no_data_pair, count_fecha_pair, List.countP_append, List.countP_cons, hb]
  · simp [write_no_data_single, count_fecha_single, List.countP_append, List.countP_cons, hs]

/-- C6: numeric coercion: `"12.345"` and `"12,345"` both coerce to the
integer 12345; every input whose stripped lowercased form is a null-like
token yields absent; and every input whose separator-stripped residue
contains a non-digit character yields absent rather than failing. -/
theorem c6_to_int_coercion :
    to_int "12.345" = some 12345 ∧
    to_int "12,345" = some 12345 ∧
    (∀ x : String, (⟨(py_strip x.data).map pyLower⟩ : String) ∈ NULLTOKENS →
      to_int x = none) ∧
    (∀ x : String,
      (∃ c ∈ (py_strip x.data).filter (fun c => !(c == '.' || c == ',')),
        c.isDigit = false) →
      to_int x = none) := by
  refine ⟨by decide, by decide, ?_, ?_⟩
  · intro x hx
    have hc : NULLTOKENS.contains (⟨(py_strip x.data).map pyLower⟩ : String) = true := by
      exact List.elem_eq_true_of_mem hx
    simp only [to_int]
    rw [if_pos hc]
  · intro x hx
    rcases hx with ⟨c, hcmem, hcd⟩
    simp only [to_int]
    by_cases hnull : NULLTOKENS.contains (⟨(py_strip x.data).map pyLower⟩ : String) = true
    · rw [if_pos hnull]
    · rw [if_neg hnull]
      have hall : ((py_strip x.data).filter (fun c => !(c == '.' || c == ','))).all
          Char.isDigit = false := by
        rw [List.all_eq_false]
        exact ⟨c, hcmem, by simp [hcd]⟩
      have hdig : py_isdigit ((py_strip x.data).filter
          (fun c => !(c == '.' || c == ','))) = false := by
        simp only [py_isdigit]
        rw [hall, Bool.and_false]
      have hcond : ¬ (py_isdigit ((py_strip x.data).filter
          (fun c => !(c == '.' || c == ','))) = true) := by
        rw [hdig]
        exact Bool.false_ne_true
      rw [if_neg hcond]

/-- C6 witness: concrete null-like and non-digit inputs coerce to
absent. -/
theorem c6_to_int_coercion_witness :
    ((⟨(py_strip ("NaN".data)).map pyLower⟩ : String) ∈ NULLTOKENS) ∧
    to_int "NaN" = none ∧
    (∃ c ∈ (py_strip ("12a".data)).filter (fun c => !(c == '.' || c == ',')),
      c.isDigit = false) ∧
    to_int "12a" = none :=
  ⟨by decide, c6_to_int_coercion.2.2.1 "NaN" (by decide),
   by decide, c6_to_int_coercion.2.2.2 "12a" (by decide)⟩

/-- C7: name canonicalization: whenever the alias entry at position `i`
of the alias table is the first whose (normalized) aliases occur inside
the normalized raw value, `canonical_name` returns that entry's
canonical id; when no entry matches, it returns `none`; and
`shape_output` keeps exactly the rows whose media cell canonicalizes,
dropping the unmatched ones. -/
theorem c7_canonical_first_match :
    (∀ (s : String) (i : Nat) (hi : i < ALIASES.length),
      aliasHit (norm s) (ALIASES.get ⟨i, hi⟩) = true →
      (∀ j (hj : j < i), aliasHit (norm s) (ALIASES.get ⟨j, Nat.lt_trans hj hi⟩) = false) →
      canonical_name s = some (target_name (ALIASES.get ⟨i, hi⟩).1)) ∧
    (∀ s : String, (∀ p ∈ ALIASES, aliasHit (norm s) p = false) → canonical_name s = none) ∧
    (∀ (df : RawTable) (mediaIdx : Nat) (d : String),
      (shape_output df mediaIdx d).length =
        (df.rows.filter (fun r => (canonical_name (cell r mediaIdx)).isSome)).length) :=
  ⟨fun s i hi hm hfirst => canonical_find_first ALIASES (norm s) i hi hm hfirst,
   fun s h => canonical_find_no_hit ALIASES (norm s) h,
   shape_output_length_eq⟩

/-- C7 witness: `"Ultima Hora"` matches the first alias entry and maps
to `ULTIMAHORA.ES`; `"elpais.es"` matches no entry and maps to `none`. -/
theorem c7_canonical_first_match_witness :
    aliasHit (norm "Ultima Hora") (ALIASES.get ⟨0, by decide⟩) = true ∧
    canonical_name "Ultima Hora" = some (target_name (ALIASES.get ⟨0, by decide⟩).1) ∧
    (∀ p ∈ ALIASES, aliasHit (norm "elpais.es") p = false) ∧
    canonical_name "elpais.es" = none :=
  ⟨by decide,
   c7_canonical_first_match.1 "Ultima Hora" 0 (by decide) (by decide)
     (fun j hj => absurd hj (Nat.not_lt_zero j)),
   by decide,
   c7_canonical_first_match.2.1 "elpais.es" (by decide)⟩

/-- C8 (code bug): on the spec's end-to-end shaping example — header
`["Nombre", "Usuarios", "Visitas", "Páginas"]`, single row
`["Ultima Hora", "232.762", "81,379", "1.050.200"]`, target date
2024-03-10 — the code shapes name and metrics as the claim states
(ULTIMAHORA.ES, 232762, 81379, 1050200, one row), but the date cell is
blank, not `"2024-03-10"`: the scalar `Fecha` assignment to the empty
frame (line 130) is wiped to NaN by the `Nombre` Series assignment's
reindex (line 131, pandas GH5632).  The claim matches the obvious
intent (the whole store is keyed and sorted by `Fecha`), so the code,
not the claim, is wrong here. -/
theorem c8_shape_example :
    shape_output ⟨["Nombre", "Usuarios", "Visitas", "Páginas"],
        [["Ultima Hora", "232.762", "81,379", "1.050.200"]]⟩ 0 "2024-03-10" =
      [⟨"", "ULTIMAHORA.ES", some 232762, some 81379, some 1050200⟩] ∧
    shape_output ⟨["Nombre", "Usuarios", "Visitas", "Páginas"],
        [["Ultima Hora", "232.762", "81,379", "1.050.200"]]⟩ 0 "2024-03-10" ≠
      [⟨"2024-03-10", "ULTIMAHORA.ES", some 232762, some 81379, some 1050200⟩] := by
  decide

/-- C9: `pick_table` of the empty candidate list is `none`, and whenever
it returns a table, that table is a candidate with the highest total
score and every earlier candidate scores strictly lower (first-seen
tie-break). -/
theorem c9_pick_table_best :
    pick_table [] = none ∧
    (∀ (ts : List RawTable) (t : RawTable), pick_table ts = some t →
      ∃ (i : Nat) (hi : i < ts.length), ts.get ⟨i, hi⟩ = t ∧
        (∀ u ∈ ts, scoreTable u ≤ scoreTable t) ∧
        (∀ j (hj : j < i), scoreTable (ts.get ⟨j, Nat.lt_trans hj hi⟩) < scoreTable t)) := by
  refine ⟨rfl, ?_⟩
  intro ts t ht
  rcases pickGo_spec ts none (-1) with ⟨_, heq⟩ | ⟨i, hi, _, hall, hfirst, heq⟩
  · rw [pick_table, heq] at ht
    cases ht
  · rw [pick_table, heq] at ht
    have ht2 : ts.get ⟨i, hi⟩ = t := Option.some.inj ht
    refine ⟨i, hi, ht2, ?_, ?_⟩
    · intro u hu
      rw [← ht2]
      exact hall u hu
    · intro j hj
      rw [← ht2]
      exact hfirst j hj

/-- C9 witness: a singleton candidate list is picked, with the
first-argmax properties instantiated. -/
theorem c9_pick_table_best_witness :
    pick_table [RawTable.mk ["Nombre", "Usuarios", "Visitas", "Páginas"] []] =
      some (RawTable.mk ["Nombre", "Usuarios", "Visitas", "Páginas"] []) ∧
    (∃ (i : Nat)
       (hi : i < [RawTable.mk ["Nombre", "Usuarios", "Visitas", "Páginas"] []].length),
      [RawTable.mk ["Nombre", "Usuarios", "Visitas", "Páginas"] []].get ⟨i, hi⟩ =
        RawTable.mk ["Nombre", "Usuarios", "Visitas", "Páginas"] [] ∧
      (∀ u ∈ [RawTable.mk ["Nombre", "Usuarios", "Visitas", "Páginas"] []],
        scoreTable u ≤ scoreTable (RawTable.mk ["Nombre", "Usuarios", "Visitas", "Páginas"] [])) ∧
      (∀ j (hj : j < i),
        scoreTable ([RawTable.mk ["Nombre", "Usuarios", "Visitas", "Páginas"] []].get
          ⟨j, Nat.lt_trans hj hi⟩) <
          scoreTable (RawTable.mk ["Nombre", "Usuarios", "Visitas", "Páginas"] []))) :=
  ⟨by decide,
   c9_pick_table_best.2 [RawTable.mk ["Nombre", "Usuarios", "Visitas", "Páginas"] []]
     (RawTable.mk ["Nombre", "Usuarios", "Visitas", "Páginas"] []) (by decide)⟩

/-- The two ratio cells of a pair row, characterized: present with value
`round(p/u, 2)` exactly when both operands are present and non-zero. -/
theorem pvu_spec (u p : Option Int) :
    (∀ a b : Int, u = some a → p = some b → a ≠ 0 → b ≠ 0 →
      pvu u p = some (py_round2 ((b : ℚ) / (a : ℚ)))) ∧
    ((u = none ∨ u = some 0 ∨ p = none ∨ p = some 0) → pvu u p = none) := by
  constructor
  · intro a b hu hp ha hb
    subst hu
    subst hp
    simp [pvu, ha, hb]
  · intro h
    rcases h with h | h | h | h
    · subst h; cases p <;> simp [pvu]
    · subst h; cases p <;> simp [pvu]
    · subst h; cases u <;> simp [pvu]
    · subst h; cases u <;> simp [pvu]

/-- C10: in the pair-comparison row built from a shaped batch, each
derived ratio equals pageviews divided by unique visitors rounded to two
decimals when both operands are present and non-zero, and is absent
otherwise, for both tracked media. -/
theorem c10_pair_ratio (out_df : List MetricRow) (A B : String) (t : Target) :
    ((∀ a b : Int, pick_u out_df A = some a → pick_p out_df A = some b →
        a ≠ 0 → b ≠ 0 →
      (make_pair_row out_df A B t).pvuA = some (py_round2 ((b : ℚ) / (a : ℚ)))) ∧
     ((pick_u out_df A = none ∨ pick_u out_df A = some 0 ∨
       pick_p out_df A = none ∨ pick_p out_df A = some 0) →
      (make_pair_row out_df A B t).pvuA = none)) ∧
    ((∀ a b : Int, pick_u out_df B = some a → pick_p out_df B = some b →
        a ≠ 0 → b ≠ 0 →
      (make_pair_row out_df A B t).pvuB = some (py_round2 ((b : ℚ) / (a : ℚ)))) ∧
     ((pick_u out_df B = none ∨ pick_u out_df B = some 0 ∨
       pick_p out_df B = none ∨ pick_p out_df B = some 0) →
      (make_pair_row out_df A B t).pvuB = none)) :=
  ⟨⟨fun a b hu hp ha hb => (pvu_spec (pick_u out_df A) (pick_p out_df A)).1 a b hu hp ha hb,
    fun h => (pvu_spec (pick_u out_df A) (pick_p out_df A)).2 h⟩,
   ⟨fun a b hu hp ha hb => (pvu_spec (pick_u out_df B) (pick_p out_df B)).1 a b hu hp ha hb,
    fun h => (pvu_spec (pick_u out_df B) (pick_p out_df B)).2 h⟩⟩

/-- C10 witness: with batch A's row (100 unique visitors, 10 pageviews)
the A-side ratio is `round(10/100, 2)`, and the absent B-side media
yields an absent ratio. -/
theorem c10_pair_ratio_witness :
    pick_u [exRowA] "ULTIMAHORA.ES" = some 100 ∧
    pick_p [exRowA] "ULTIMAHORA.ES" = some 10 ∧
    (make_pair_row [exRowA] "ULTIMAHORA.ES" "DIARIODEMALLORCA.ES" exTarget).pvuA =
      some (py_round2 ((10 : ℚ) / (100 : ℚ))) ∧
    pick_u [exRowA] "DIARIODEMALLORCA.ES" = none ∧
    (make_pair_row [exRowA] "ULTIMAHORA.ES" "DIARIODEMALLORCA.ES" exTarget).pvuB = none :=
  ⟨by decide, by decide,
   (c10_pair_ratio [exRowA] "ULTIMAHORA.ES" "DIARIODEMALLORCA.ES" exTarget).1.1 100 10
     (by decide) (by decide) (by decide) (by decide),
   by decide,
   (c10_pair_ratio [exRowA] "ULTIMAHORA.ES" "DIARIODEMALLORCA.ES" exTarget).2.2
     (Or.inl (by decide))⟩
